import Mathlib

/-
Verification development for the keep-ecdsa operator node.

Shallow embedding of the Go sources (pkg/tss, pkg/chain/eth/ethereum block
counter, pkg/chain/local chain, solidity/contracts/ECDSAKeep.sol) together
with proofs of the specification's claims about them.  Go byte slices are
modelled as `List Nat` (each entry a byte value), `big.Int` values built with
`SetBytes` as big-endian natural numbers, fallible functions as
`Except String`.
-/

namespace KeepEcdsa

/-- Big-endian interpretation of a byte slice, as performed by Go's
`new(big.Int).SetBytes`.  `SetBytes` treats the slice as an unsigned
big-endian integer, so the result is a natural number. -/
def bytesToNat (bs : List Nat) : Nat :=
  bs.foldl (fun acc b => acc * 256 + b) 0

/-- Member identifier: Go's `MemberID` byte string (`pkg/tss`).  Its
`bigInt()` accessor interprets the bytes as an unsigned big-endian integer. -/
abbrev MemberID := List Nat

/-- Integer form of a `MemberID`: `memberID.bigInt()`. -/
def memberBigInt (m : MemberID) : Nat := bytesToNat m

/- ------------------------------------------------------------------
C1: signature conversion (`convertSignatureTSStoECDSA`, pkg/tss sign code)
------------------------------------------------------------------ -/

/-- Embeds tss-lib's `signing.SignatureData` as consumed by
`convertSignatureTSStoECDSA`: the raw signature-recovery byte slice and the
big-endian `R` and `S` byte slices. -/
structure SignatureData where
  signatureRecovery : List Nat
  r : List Nat
  s : List Nat

/-- Embeds `ecdsa.Signature`: `R`, `S` are `big.Int`s, `RecoveryID` is an
`int` (always the value of one byte here, so a natural number). -/
structure ECDSASignature where
  R : Nat
  S : Nat
  RecoveryID : Nat

/-- Embeds `convertSignatureTSStoECDSA` (pkg/tss signer code):

    recoveryBytes := tssSignature.GetSignatureRecovery()
    recoveryInt := int(0)
    recoveryInt = (recoveryInt << 8) | int(recoveryBytes[0])
    return ecdsa.Signature{ R: SetBytes(GetR()), S: SetBytes(GetS()),
                            RecoveryID: recoveryInt }

Go indexes `recoveryBytes[0]` directly (panicking on an empty slice); the
embedding uses `headD 0` and the theorem assumes a non-empty slice. -/
def convertSignatureTSStoECDSA (sig : SignatureData) : ECDSASignature :=
  let recoveryBytes := sig.signatureRecovery
  let recoveryInt := (0 <<< 8) ||| recoveryBytes.headD 0
  { R := bytesToNat sig.r
    S := bytesToNat sig.s
    RecoveryID := recoveryInt }

/-- C1: for every signing session output, the emitted signature's
`RecoveryID` equals the value of the low 8 bits of the first byte of the
signature-recovery byte slice, `R` and `S` equal the big-endian integer
interpretations of the underlying `R` and `S` byte slices, and the engine
does not add 27 to the recovery id. -/
theorem convertSignatureTSStoECDSA_spec (sig : SignatureData) (b : Nat) (rest : List Nat)
    (hfirst : sig.signatureRecovery = b :: rest) (hb : b < 256) :
    (convertSignatureTSStoECDSA sig).RecoveryID = b % 256 ∧
    (convertSignatureTSStoECDSA sig).R = bytesToNat sig.r ∧
    (convertSignatureTSStoECDSA sig).S = bytesToNat sig.s ∧
    (convertSignatureTSStoECDSA sig).RecoveryID ≠ b + 27 := by
  have hrec : (convertSignatureTSStoECDSA sig).RecoveryID = b := by
    simp [convertSignatureTSStoECDSA, hfirst]
  refine ⟨?_, rfl, rfl, ?_⟩
  · rw [hrec, Nat.mod_eq_of_lt hb]
  · rw [hrec]; omega

/-- Witness for C1 at a concrete signature. -/
theorem convertSignatureTSStoECDSA_spec_witness :
    (convertSignatureTSStoECDSA ⟨[1, 9], [2, 3], [4]⟩).RecoveryID = 1 % 256 ∧
    (convertSignatureTSStoECDSA ⟨[1, 9], [2, 3], [4]⟩).R = bytesToNat [2, 3] ∧
    (convertSignatureTSStoECDSA ⟨[1, 9], [2, 3], [4]⟩).S = bytesToNat [4] ∧
    (convertSignatureTSStoECDSA ⟨[1, 9], [2, 3], [4]⟩).RecoveryID ≠ 1 + 27 :=
  convertSignatureTSStoECDSA_spec ⟨[1, 9], [2, 3], [4]⟩ 1 [9] rfl (by decide)

/- ------------------------------------------------------------------
C3: group-size check at DKG initialization
(`GenerateThresholdSigner`, pkg/tss; `InitializeKeyGeneration`, pkg/tss)
------------------------------------------------------------------ -/

/-- Embeds the `groupInfo` value built by `GenerateThresholdSigner` once the
size checks pass. -/
structure GroupInfo where
  groupID : String
  memberID : MemberID
  groupMemberIDs : List MemberID
  dishonestThreshold : Int

/-- Embeds the INIT portion of `GenerateThresholdSigner` (pkg/tss): the two
guards executed before any party is constructed, and the `groupInfo` value it
builds when they pass.  `dishonestThreshold` is a Go `uint`, hence `Nat`. -/
def generateThresholdSignerInit (groupID : String) (memberID : MemberID)
    (groupMemberIDs : List MemberID) (dishonestThreshold : Nat) :
    Except String GroupInfo :=
  if groupMemberIDs.length < 1 then
    .error "group should have at least one member"
  else if groupMemberIDs.length ≤ dishonestThreshold then
    .error ("group size [" ++ toString groupMemberIDs.length ++
      "], should be greater than dishonest threshold [" ++
      toString dishonestThreshold ++ "]")
  else
    .ok { groupID := groupID
          memberID := memberID
          groupMemberIDs := groupMemberIDs
          dishonestThreshold := (dishonestThreshold : Int) }

/-- Embeds the size guard of `InitializeKeyGeneration` (pkg/tss keygen code),
whose `threshold` parameter is a Go `int`:

    if len(groupMemberIDs) <= threshold { return nil, fmt.Errorf(...) }

Returns the error when the guard rejects, `()` when the check passes and the
function goes on to construct the party. -/
def initializeKeyGenerationSizeCheck (groupMemberIDs : List MemberID)
    (threshold : Int) : Except String Unit :=
  if (groupMemberIDs.length : Int) ≤ threshold then
    .error ("group size [" ++ toString groupMemberIDs.length ++
      "], should be greater than threshold [" ++ toString threshold ++ "]")
  else
    .ok ()

/-- C3: a group whose member list has length at most the dishonest threshold
(including the empty list) is rejected when leaving INIT, in both
`GenerateThresholdSigner` and `InitializeKeyGeneration`; a group with length
greater than the threshold passes the size check. -/
theorem dkgInit_group_size_check :
    (∀ (gid : String) (mid : MemberID) (ids : List MemberID) (t : Nat),
      ids.length ≤ t →
        ∃ msg, generateThresholdSignerInit gid mid ids t = .error msg) ∧
    (∀ (gid : String) (mid : MemberID) (ids : List MemberID) (t : Nat),
      t < ids.length →
        ∃ g, generateThresholdSignerInit gid mid ids t = .ok g ∧
          g.groupMemberIDs = ids ∧ g.dishonestThreshold = (t : Int)) ∧
    (∀ (ids : List MemberID) (t : Int),
      (ids.length : Int) ≤ t →
        ∃ msg, initializeKeyGenerationSizeCheck ids t = .error msg) ∧
    (∀ (ids : List MemberID) (t : Int),
      t < (ids.length : Int) →
        initializeKeyGenerationSizeCheck ids t = .ok ()) := by
  refine ⟨?_, ?_, ?_, ?_⟩
  · intro gid mid ids t hle
    by_cases h1 : ids.length < 1
    · exact ⟨"group should have at least one member",
        by simp [generateThresholdSignerInit, h1]⟩
    · exact ⟨"group size [" ++ toString ids.length ++
        "], should be greater than dishonest threshold [" ++ toString t ++ "]",
        by simp [generateThresholdSignerInit, h1, hle]⟩
  · intro gid mid ids t hgt
    have h1 : ¬ ids.length < 1 := by omega
    have h2 : ¬ ids.length ≤ t := by omega
    refine ⟨{ groupID := gid, memberID := mid, groupMemberIDs := ids,
              dishonestThreshold := (t : Int) }, ?_, rfl, rfl⟩
    simp [generateThresholdSignerInit, h1, h2]
  · intro ids t hle
    exact ⟨"group size [" ++ toString ids.length ++
      "], should be greater than threshold [" ++ toString t ++ "]",
      by simp [initializeKeyGenerationSizeCheck, hle]⟩
  · intro ids t hgt
    have h2 : ¬ (ids.length : Int) ≤ t := by omega
    simp [initializeKeyGenerationSizeCheck, h2]

/-- Witness for C3: the empty group and a one-member group at threshold 1 are
rejected; a two-member group at threshold 1 passes. -/
theorem dkgInit_group_size_check_witness :
    (∃ msg, generateThresholdSignerInit "g" [1] ([] : List MemberID) 0 = .error msg) ∧
    (∃ msg, generateThresholdSignerInit "g" [1] ([[1]] : List MemberID) 1 = .error msg) ∧
    (∃ g, generateThresholdSignerInit "g" [1] ([[1], [2]] : List MemberID) 1 = .ok g ∧
      g.groupMemberIDs = ([[1], [2]] : List MemberID) ∧ g.dishonestThreshold = (1 : Int)) ∧
    (∃ msg, initializeKeyGenerationSizeCheck ([[1]] : List MemberID) 1 = .error msg) ∧
    initializeKeyGenerationSizeCheck ([[1], [2]] : List MemberID) 1 = .ok () :=
  ⟨dkgInit_group_size_check.1 "g" [1] [] 0 (by decide),
   dkgInit_group_size_check.1 "g" [1] [[1]] 1 (by decide),
   dkgInit_group_size_check.2.1 "g" [1] [[1], [2]] 1 (by decide),
   dkgInit_group_size_check.2.2.1 [[1]] 1 (by decide),
   dkgInit_group_size_check.2.2.2 [[1], [2]] 1 (by decide)⟩

/- ------------------------------------------------------------------
C6: party-id generation (`generatePartiesIDs`, pkg/tss)
------------------------------------------------------------------ -/

/-- Embeds tss-lib's `tss.PartyID` as constructed by `tss.NewPartyID`: the
`id` string (the member's bytes), the empty moniker, and the identifying
`key` (the member's integer form). -/
structure PartyID where
  id : List Nat
  moniker : String
  key : Nat
deriving DecidableEq

/-- Embeds the `tss.NewPartyID(string(memberID), "", memberID.bigInt())`
call in `generatePartiesIDs`. -/
def newPartyID (m : MemberID) : PartyID :=
  { id := m, moniker := "", key := memberBigInt m }

/-- Embeds the loop body of `generatePartiesIDs` (pkg/tss): each member is
checked to have a strictly positive integer form (error otherwise), a party
id is appended, and `thisPartyID` is set when the member equals the current
member. -/
def generatePartiesIDsLoop (thisMemberID : MemberID) :
    List MemberID → Option PartyID → List PartyID →
    Except String (Option PartyID × List PartyID)
  | [], thisParty, acc => .ok (thisParty, acc)
  | memberID :: rest, thisParty, acc =>
    if memberBigInt memberID ≤ 0 then
      .error ("member ID must be greater than 0, but found [" ++
        toString (memberBigInt memberID) ++ "]")
    else
      generatePartiesIDsLoop thisMemberID rest
        (if thisMemberID = memberID then some (newPartyID memberID) else thisParty)
        (acc ++ [newPartyID memberID])

/-- Embeds `generatePartiesIDs` (pkg/tss): iterates over the group member
ids starting from an empty accumulator and no current party. -/
def generatePartiesIDs (thisMemberID : MemberID) (groupMemberIDs : List MemberID) :
    Except String (Option PartyID × List PartyID) :=
  generatePartiesIDsLoop thisMemberID groupMemberIDs none []

theorem generatePartiesIDsLoop_ok (thisMemberID : MemberID) (ids : List MemberID)
    (tp : Option PartyID) (acc : List PartyID)
    (h : ∀ m ∈ ids, 0 < memberBigInt m) :
    ∃ tp', generatePartiesIDsLoop thisMemberID ids tp acc =
      .ok (tp', acc ++ ids.map newPartyID) := by
  induction ids generalizing tp acc with
  | nil => exact ⟨tp, by simp [generatePartiesIDsLoop]⟩
  | cons m rest ih =>
    have hm : 0 < memberBigInt m := h m (List.mem_cons_self m rest)
    have hrest : ∀ x ∈ rest, 0 < memberBigInt x := fun x hx => h x (List.mem_cons_of_mem m hx)
    have hnot : ¬ memberBigInt m ≤ 0 := by omega
    obtain ⟨tp', htp'⟩ := ih
      (if thisMemberID = m then some (newPartyID m) else tp)
      (acc ++ [newPartyID m]) hrest
    refine ⟨tp', ?_⟩
    rw [generatePartiesIDsLoop, if_neg hnot, htp']
    simp

theorem generatePartiesIDsLoop_err (thisMemberID : MemberID) (ids : List MemberID)
    (tp : Option PartyID) (acc : List PartyID)
    (h : ∃ m ∈ ids, memberBigInt m ≤ 0) :
    ∃ msg, generatePartiesIDsLoop thisMemberID ids tp acc = .error msg := by
  induction ids generalizing tp acc with
  | nil => simp at h
  | cons m rest ih =>
    by_cases hm : memberBigInt m ≤ 0
    · exact ⟨_, by rw [generatePartiesIDsLoop, if_pos hm]⟩
    · obtain ⟨x, hx, hxle⟩ := h
      rcases List.mem_cons.mp hx with rfl | hxrest
      · exact absurd hxle hm
      · obtain ⟨msg, hmsg⟩ := ih
          (if thisMemberID = m then some (newPartyID m) else tp)
          (acc ++ [newPartyID m]) ⟨x, hxrest, hxle⟩
        exact ⟨msg, by rw [generatePartiesIDsLoop, if_neg hm, hmsg]⟩

/-- C6: `generatePartiesIDs` returns an error and no party ids when some
member's integer form is not strictly positive; when every member's integer
form is strictly positive it returns one party id per member carrying the
member's bytes as `id` and its integer form as `key`. -/
theorem generatePartiesIDs_spec (thisMemberID : MemberID) (ids : List MemberID) :
    ((∃ m ∈ ids, memberBigInt m ≤ 0) →
      ∃ msg, generatePartiesIDs thisMemberID ids = .error msg) ∧
    ((∀ m ∈ ids, 0 < memberBigInt m) →
      ∃ tp, generatePartiesIDs thisMemberID ids = .ok (tp, ids.map newPartyID) ∧
        (ids.map newPartyID).map PartyID.id = ids ∧
        (ids.map newPartyID).map PartyID.key = ids.map memberBigInt) := by
  constructor
  · intro h
    exact generatePartiesIDsLoop_err thisMemberID ids none [] h
  · intro h
    obtain ⟨tp', htp'⟩ := generatePartiesIDsLoop_ok thisMemberID ids none [] h
    refine ⟨tp', by simpa using htp', ?_, ?_⟩
    · simp [newPartyID, Function.comp_def]
    · simp [newPartyID, Function.comp_def]

/-- Witness for C6: a group containing the all-zero member id is rejected; a
group of positive member ids yields the expected party ids. -/
theorem generatePartiesIDs_spec_witness :
    (∃ msg, generatePartiesIDs [1] ([[1], [0]] : List MemberID) = .error msg) ∧
    (∃ tp, generatePartiesIDs [1] ([[1], [2]] : List MemberID) =
        .ok (tp, ([[1], [2]] : List MemberID).map newPartyID) ∧
      (([[1], [2]] : List MemberID).map newPartyID).map PartyID.id = [[1], [2]] ∧
      (([[1], [2]] : List MemberID).map newPartyID).map PartyID.key =
        ([[1], [2]] : List MemberID).map memberBigInt) :=
  ⟨(generatePartiesIDs_spec [1] [[1], [0]]).1 (by decide),
   (generatePartiesIDs_spec [1] [[1], [2]]).2 (by decide)⟩

/- ------------------------------------------------------------------
C7: ECDSAKeep.submitSignature (solidity/contracts/ECDSAKeep.sol)
------------------------------------------------------------------ -/

/-- Embeds the `ECDSAKeep` contract state used by `submitSignature`:
the member address list, the stored 64-byte public key, and
`currentSigningStartBlock` (`0` meaning no signing in progress). -/
structure ECDSAKeepContract where
  members : List Nat
  publicKey : List Nat
  currentSigningStartBlock : Nat
deriving DecidableEq

/-- Embeds `isSigningInProgress`: `currentSigningStartBlock != 0`. -/
def isSigningInProgress (k : ECDSAKeepContract) : Bool :=
  k.currentSigningStartBlock != 0

/-- Embeds `publicKeyToAddress`: `address(uint160(uint256(keccak256(pk))))`.
The keccak256 hash is an external primitive, passed in as a function
returning the `uint256` digest value; the cast to `uint160` truncates
modulo `2 ^ 160`. -/
def publicKeyToAddress (keccak256 : List Nat → Nat) (publicKey : List Nat) : Nat :=
  keccak256 publicKey % 2 ^ 160

/-- Embeds `submitSignature(digest, r, s, recoveryID)` of `ECDSAKeep.sol`,
including the `onlyMember` modifier.  `ecrecover` is the EVM precompile,
passed in as a function of `(digest, v, r, s)` returning an address; `v` is a
`uint8`, computed as `27 + _recoveryID`.  The `require` chain is modelled as
nested conditionals returning the corresponding revert message; on success
`currentSigningStartBlock` is reset to `0`. -/
def submitSignature (keccak256 : List Nat → Nat)
    (ecrecover : Nat → Nat → Nat → Nat → Nat)
    (k : ECDSAKeepContract) (sender digest r s recoveryID : Nat) :
    Except String ECDSAKeepContract :=
  if sender ∈ k.members then
    if isSigningInProgress k then
      if recoveryID < 4 then
        let v := (27 + recoveryID) % 256
        if publicKeyToAddress keccak256 k.publicKey = ecrecover digest v r s then
          .ok { k with currentSigningStartBlock := 0 }
        else
          .error "Invalid signature"
      else
        .error "Recovery ID must be one of \x7b0, 1, 2, 3\x7d"
    else
      .error "Signature has been already submitted"
  else
    .error "Caller is not the keep member"

/-- C7: `submitSignature` accepts a recovery id only from `{0, 1, 2, 3}`
(rejecting any value at least 4), computes `v = 27 + recoveryId`, succeeds
exactly when `ecrecover` of the digest with `(v, r, s)` equals the address
derived from the keep's stored public key, and on success clears the
signing-in-progress flag. -/
theorem submitSignature_spec (keccak256 : List Nat → Nat)
    (ecrecover : Nat → Nat → Nat → Nat → Nat) (k : ECDSAKeepContract)
    (sender digest r s recoveryID : Nat)
    (hmem : sender ∈ k.members) (hprog : isSigningInProgress k = true) :
    (4 ≤ recoveryID →
      submitSignature keccak256 ecrecover k sender digest r s recoveryID =
        .error "Recovery ID must be one of \x7b0, 1, 2, 3\x7d") ∧
    (recoveryID < 4 →
      ((∃ k', submitSignature keccak256 ecrecover k sender digest r s recoveryID =
          .ok k') ↔
        ecrecover digest (27 + recoveryID) r s =
          publicKeyToAddress keccak256 k.publicKey)) ∧
    (∀ k', submitSignature keccak256 ecrecover k sender digest r s recoveryID =
        .ok k' → isSigningInProgress k' = false) := by
  refine ⟨?_, ?_, ?_⟩
  · intro hge
    have h4 : ¬ recoveryID < 4 := by omega
    simp [submitSignature, hmem, hprog, h4]
  · intro hlt
    have hv : (27 + recoveryID) % 256 = 27 + recoveryID := by omega
    constructor
    · intro ⟨k', hk'⟩
      by_cases heq : publicKeyToAddress keccak256 k.publicKey =
          ecrecover digest ((27 + recoveryID) % 256) r s
      · rw [hv] at heq
        exact heq.symm
      · simp [submitSignature, hmem, hprog, hlt, heq] at hk'
    · intro heq
      refine ⟨{ k with currentSigningStartBlock := 0 }, ?_⟩
      have heq' : publicKeyToAddress keccak256 k.publicKey =
          ecrecover digest ((27 + recoveryID) % 256) r s := by
        rw [hv]
        exact heq.symm
      simp [submitSignature, hmem, hprog, hlt, heq']
  · intro k' hk'
    by_cases hlt : recoveryID < 4
    · by_cases heq : publicKeyToAddress keccak256 k.publicKey =
          ecrecover digest ((27 + recoveryID) % 256) r s
      · simp [submitSignature, hmem, hprog, hlt, heq] at hk'
        rw [← hk']
        simp [isSigningInProgress]
      · simp [submitSignature, hmem, hprog, hlt, heq] at hk'
    · simp [submitSignature, hmem, hprog, hlt] at hk'

/-- Witness for C7 with constant hash and recovery primitives: recovery id 9
is rejected, recovery id 2 succeeds exactly when `ecrecover` matches, and the
successful state has signing cleared. -/
theorem submitSignature_spec_witness :
    (4 ≤ 9 →
      submitSignature (fun _ => 7) (fun _ _ _ _ => 7) ⟨[5], [1], 3⟩ 5 11 12 13 9 =
        .error "Recovery ID must be one of \x7b0, 1, 2, 3\x7d") ∧
    ((2 : Nat) < 4 →
      ((∃ k', submitSignature (fun _ => 7) (fun _ _ _ _ => 7) ⟨[5], [1], 3⟩ 5 11 12 13 2 =
          .ok k') ↔
        (fun (_ _ _ _ : Nat) => (7 : Nat)) 11 (27 + 2) 12 13 =
          publicKeyToAddress (fun _ => 7) [1])) ∧
    (∀ k', submitSignature (fun _ => 7) (fun _ _ _ _ => 7) ⟨[5], [1], 3⟩ 5 11 12 13 2 =
        .ok k' → isSigningInProgress k' = false) :=
  ⟨fun _ => (submitSignature_spec (fun _ => 7) (fun _ _ _ _ => 7) ⟨[5], [1], 3⟩ 5 11 12 13 9
      (by decide) (by decide)).1 (by decide),
   fun _ => (submitSignature_spec (fun _ => 7) (fun _ _ _ _ => 7) ⟨[5], [1], 3⟩ 5 11 12 13 2
      (by decide) (by decide)).2.1 (by decide),
   (submitSignature_spec (fun _ => 7) (fun _ _ _ _ => 7) ⟨[5], [1], 3⟩ 5 11 12 13 2
      (by decide) (by decide)).2.2⟩

/- ------------------------------------------------------------------
C8 and C10: local chain (`pkg/chain/local`)
------------------------------------------------------------------ -/

/-- Chain-side address: Go's `common.Address`, a 20-byte value, modelled as
its byte list. -/
abbrev Address := List Nat

/-- Hexadecimal digit character for a value below 16 (lowercase letters). -/
def hexDigit (n : Nat) : Char :=
  if n < 10 then Char.ofNat (48 + n) else Char.ofNat (87 + n)

/-- Two hexadecimal digits of one byte. -/
def byteToHex (b : Nat) : List Char := [hexDigit (b / 16), hexDigit (b % 16)]

/-- Lowercase hexadecimal rendering `0x…` of an address's bytes.  Go's
`common.Address.String()` additionally applies EIP-55 checksum casing, which
differs from this rendering only in the letter case of hex digits a–f. -/
def addressHex (a : Address) : String :=
  "0x" ++ String.mk (a.map byteToHex).flatten

/-- Embeds `localKeep` (pkg/chain/local): registered signature-requested
handlers (by handler id) and the keep's 64-byte public key. -/
structure LocalKeep where
  signatureRequestedHandlers : List Nat
  publicKey : List Nat
deriving DecidableEq

/-- Embeds the `LocalChain` state: the `keeps` map (as an association list
with at most one binding per address) and the registered keep-created
handlers. -/
structure LocalChainState where
  keeps : List (Address × LocalKeep)
  keepCreatedHandlers : List Nat
deriving DecidableEq

/-- Go map lookup `c.keeps[keepAddress]` on the association-list model. -/
def lookupKeep : List (Address × LocalKeep) → Address → Option LocalKeep
  | [], _ => none
  | (a, k) :: rest, addr => if a = addr then some k else lookupKeep rest addr

/-- Embeds `eth.ECDSAKeepCreatedEvent`: the keep address and member list
passed to each keep-created handler. -/
structure ECDSAKeepCreatedEvent where
  keepAddress : Address
  members : List Address
deriving DecidableEq

/-- The 64-byte zero public key `[64]byte{}` stored for a fresh keep. -/
def zero64 : List Nat := List.replicate 64 0

/-- Embeds `LocalChain.CreateKeep` (pkg/chain/local): rejects an address
already present in `keeps`, otherwise stores a fresh `localKeep` with no
handlers and the zero public key and calls every registered keep-created
handler with the event carrying the address and member list.  The handler
goroutine launches are modelled as the returned list of
`(handler, event)` calls. -/
def CreateKeep (c : LocalChainState) (keepAddress : Address) (members : List Address) :
    Except String (LocalChainState × List (Nat × ECDSAKeepCreatedEvent)) :=
  if (lookupKeep c.keeps keepAddress).isSome then
    .error ("keep already exists for address [" ++ addressHex keepAddress ++ "]")
  else
    .ok ({ c with keeps := (keepAddress,
            { signatureRequestedHandlers := [], publicKey := zero64 }) :: c.keeps },
         c.keepCreatedHandlers.map
           (fun h => (h, { keepAddress := keepAddress, members := members })))

/-- C10: `CreateKeep` on an address already present returns an error naming
that address and leaves the keeps map unchanged; on a fresh address it adds a
keep whose public key is the 64-byte zero value and invokes every registered
keep-created handler with an event carrying that address and the given
member list. -/
theorem CreateKeep_spec (c : LocalChainState) (a : Address) (ms : List Address) :
    ((lookupKeep c.keeps a).isSome →
      CreateKeep c a ms =
        .error ("keep already exists for address [" ++ addressHex a ++ "]")) ∧
    (lookupKeep c.keeps a = none →
      ∃ c', CreateKeep c a ms =
          .ok (c', c.keepCreatedHandlers.map
            (fun h => (h, { keepAddress := a, members := ms }))) ∧
        lookupKeep c'.keeps a =
          some { signatureRequestedHandlers := [], publicKey := zero64 } ∧
        (∀ b, b ≠ a → lookupKeep c'.keeps b = lookupKeep c.keeps b) ∧
        c'.keepCreatedHandlers = c.keepCreatedHandlers) := by
  constructor
  · intro hsome
    simp [CreateKeep, hsome]
  · intro hnone
    have hnot : ¬ (lookupKeep c.keeps a).isSome := by simp [hnone]
    refine ⟨{ c with keeps := (a,
        { signatureRequestedHandlers := [], publicKey := zero64 }) :: c.keeps },
      by simp [CreateKeep, hnot], ?_, ?_, rfl⟩
    · simp [lookupKeep]
    · intro b hb
      simp only [lookupKeep]
      rw [if_neg (fun h => hb h.symm)]

/-- Fresh keep value as stored by `CreateKeep`, used by the C10 witness. -/
def freshKeep : LocalKeep := { signatureRequestedHandlers := [], publicKey := zero64 }

/-- Local chain already holding a keep at address `[1]`, used by the C10
witness. -/
def chainWithKeep1 : LocalChainState := { keeps := [([1], freshKeep)], keepCreatedHandlers := [8] }

/-- Local chain with no keeps and one keep-created handler, used by the C10
witness. -/
def chainNoKeeps : LocalChainState := { keeps := [], keepCreatedHandlers := [8] }

/-- Witness for C10: creating a keep at a fresh address succeeds with a zero
public key, and creating one at an occupied address fails. -/
theorem CreateKeep_spec_witness :
    ((lookupKeep chainWithKeep1.keeps [1]).isSome →
      CreateKeep chainWithKeep1 [1] [[2]] =
        .error ("keep already exists for address [" ++ addressHex [1] ++ "]")) ∧
    (lookupKeep chainNoKeeps.keeps [1] = none →
      ∃ c', CreateKeep chainNoKeeps [1] [[2]] =
          .ok (c', chainNoKeeps.keepCreatedHandlers.map
            (fun h => (h, { keepAddress := [1], members := [[2]] }))) ∧
        lookupKeep c'.keeps [1] =
          some { signatureRequestedHandlers := [], publicKey := zero64 } ∧
        (∀ b, b ≠ [1] → lookupKeep c'.keeps b = lookupKeep chainNoKeeps.keeps b) ∧
        c'.keepCreatedHandlers = chainNoKeeps.keepCreatedHandlers) :=
  ⟨(CreateKeep_spec chainWithKeep1 [1] [[2]]).1,
   (CreateKeep_spec chainNoKeeps [1] [[2]]).2⟩

/-- Modelled from the spec: `requestSignature` of the local chain
(`pkg/chain/local`), whose implementation file is not under src/ — only its
test `TestRequestSignatureNonexistentKeep` is.  Per the spec (§8 scenario 2
and §4.5), a request for an address absent from `keeps` fails with the error
`failed to find keep with address: [<hex address>]` and has no side effects;
for a known keep every registered signature-requested handler is invoked
with the digest. -/
def requestSignature (c : LocalChainState) (keepAddress : Address) (digest : Nat) :
    Except String (LocalChainState × List (Nat × Nat)) :=
  match lookupKeep c.keeps keepAddress with
  | none => .error ("failed to find keep with address: [" ++ addressHex keepAddress ++ "]")
  | some keep => .ok (c, keep.signatureRequestedHandlers.map (fun h => (h, digest)))

/-- C8: requesting a signature for a keep address not present in the keep
map returns exactly the error `failed to find keep with address: [<hex>]`
with the address interpolated, and no state change or signature-requested
event results. -/
theorem requestSignature_unknown_keep (c : LocalChainState) (a : Address) (d : Nat)
    (h : lookupKeep c.keeps a = none) :
    requestSignature c a d =
      .error ("failed to find keep with address: [" ++ addressHex a ++ "]") := by
  simp [requestSignature, h]

/-- Witness for C8 at the test's literal input: empty keep map, address
`0x…01`, with the fully rendered error string. -/
theorem requestSignature_unknown_keep_witness :
    requestSignature { keeps := [], keepCreatedHandlers := [] }
        [0, 0, 0, 0, 0, 0, 0, 0, 0, 0, 0, 0, 0, 0, 0, 0, 0, 0, 0, 1] 1 =
      .error "failed to find keep with address: [0x0000000000000000000000000000000000000001]" := by
  rw [requestSignature_unknown_keep { keeps := [], keepCreatedHandlers := [] }
    [0, 0, 0, 0, 0, 0, 0, 0, 0, 0, 0, 0, 0, 0, 0, 0, 0, 0, 0, 1] 1 rfl]
  rfl

/- ------------------------------------------------------------------
C4 and C9: block counter (`pkg/chain/eth/ethereum` blockcounter.go)
------------------------------------------------------------------ -/

/-- Embeds the mutable state of `ethereumBlockCounter` used by
`receiveBlocks`: the latest observed block height and the waiter map from
height to registered waiter channels, modelled as an association list with
at most one binding per height. -/
structure BlockCounterState where
  latestBlockHeight : Nat
  waiters : List (Nat × List Nat)
deriving DecidableEq

/-- Go map read `ebc.waiters[height]` (the empty slice when absent). -/
def waitersAt (ws : List (Nat × List Nat)) (h : Nat) : List Nat :=
  match ws with
  | [] => []
  | (hh, cs) :: rest => if hh = h then cs else waitersAt rest h

/-- Go map removal `delete(ebc.waiters, height)`. -/
def deleteWaiters : List (Nat × List Nat) → Nat → List (Nat × List Nat)
  | [], _ => []
  | (hh, cs) :: rest, h =>
    if hh = h then deleteWaiters rest h else (hh, cs) :: deleteWaiters rest h

/-- One wake event of `receiveBlocks`: the processed height and the waiter
channels woken for it, read out of the map as it is deleted. -/
structure Wake where
  height : Nat
  woken : List Nat
deriving DecidableEq

/-- Embeds the body of `receiveBlocks` handling one notification of height
`received`: for every unseen height `latestBlockHeight + 1 … received` the
loop removes the waiters registered at that height from the map and wakes
them, then offers the height to every registered watcher, delivering it to
exactly those ready to receive — a non-ready watcher's height is dropped by
the `select`/`default`, without affecting any other watcher.  `ready w h`
says whether watcher `w` is ready to receive at the moment height `h` is
dispatched.  Returns the final state, the wake events in processing order,
and the `(watcher, height)` deliveries.  A notification with
`received ≤ latestBlockHeight` (the `continue` branch for an equal height,
or an empty inner loop) produces nothing. -/
def receiveBlocksLoop (ready : Nat → Nat → Bool) (watchers : List Nat)
    (s : BlockCounterState) (received : Nat) :
    BlockCounterState × List Wake × List (Nat × Nat) :=
  if _hlt : s.latestBlockHeight < received then
    let height := s.latestBlockHeight + 1
    let woken := waitersAt s.waiters height
    let s' : BlockCounterState :=
      { latestBlockHeight := height, waiters := deleteWaiters s.waiters height }
    let delivered := (watchers.filter (fun w => ready w height)).map (fun w => (w, height))
    let rest := receiveBlocksLoop ready watchers s' received
    (rest.1, { height := height, woken := woken } :: rest.2.1, delivered ++ rest.2.2)
  else
    (s, [], [])
termination_by received - s.latestBlockHeight

/-- Embeds the outer `for block := range ebc.subscriptionChannel` loop of
`receiveBlocks` over a finite sequence of received notifications. -/
def receiveBlocksRun (ready : Nat → Nat → Bool) (watchers : List Nat)
    (s : BlockCounterState) : List Nat → BlockCounterState × List Wake × List (Nat × Nat)
  | [] => (s, [], [])
  | n :: ns =>
    let step := receiveBlocksLoop ready watchers s n
    let rest := receiveBlocksRun ready watchers step.1 ns
    (rest.1, step.2.1 ++ rest.2.1, step.2.2 ++ rest.2.2)

/-- Heights delivered to one watcher, in delivery order. -/
def deliveredTo (dels : List (Nat × Nat)) (w : Nat) : List Nat :=
  (dels.filter (fun p => p.1 = w)).map Prod.snd

theorem waitersAt_deleteWaiters_self (ws : List (Nat × List Nat)) (h : Nat) :
    waitersAt (deleteWaiters ws h) h = [] := by
  induction ws with
  | nil => rfl
  | cons p rest ih =>
    obtain ⟨hh, cs⟩ := p
    by_cases hp : hh = h
    · simpa [deleteWaiters, hp] using ih
    · simpa [deleteWaiters, waitersAt, hp] using ih

theorem waitersAt_deleteWaiters_ne (ws : List (Nat × List Nat)) (h h' : Nat)
    (hne : h' ≠ h) : waitersAt (deleteWaiters ws h) h' = waitersAt ws h' := by
  induction ws with
  | nil => rfl
  | cons p rest ih =>
    obtain ⟨hh, cs⟩ := p
    by_cases hp : hh = h
    · have hp' : hh ≠ h' := by rw [hp]; exact fun hc => hne hc.symm
      rw [deleteWaiters, if_pos hp, ih]
      simp [waitersAt, hp']
    · rw [deleteWaiters, if_neg hp]
      by_cases hp' : hh = h'
      · simp [waitersAt, hp']
      · simp [waitersAt, hp', ih]

theorem receiveBlocksLoop_latest (ready : Nat → Nat → Bool) (watchers : List Nat)
    (s : BlockCounterState) (received : Nat) :
    (receiveBlocksLoop ready watchers s received).1.latestBlockHeight =
      max s.latestBlockHeight received := by
  induction s, received using receiveBlocksLoop.induct ready watchers with
  | case1 s received hlt height s' ih =>
    rw [receiveBlocksLoop, dif_pos hlt]
    simp only
    rw [ih]
    simp only [s', height]
    omega
  | case2 s received hlt =>
    rw [receiveBlocksLoop, dif_neg hlt]
    show s.latestBlockHeight = max s.latestBlockHeight received
    omega

theorem receiveBlocksLoop_waiters_preserved (ready : Nat → Nat → Bool)
    (watchers : List Nat) (s : BlockCounterState) (received : Nat) (h : Nat)
    (hle : h ≤ s.latestBlockHeight) :
    waitersAt (receiveBlocksLoop ready watchers s received).1.waiters h =
      waitersAt s.waiters h := by
  induction s, received using receiveBlocksLoop.induct ready watchers with
  | case1 s received hlt height s' ih =>
    rw [receiveBlocksLoop, dif_pos hlt]
    simp only
    have hle' : h ≤ s'.latestBlockHeight := by
      simp only [s', height]
      omega
    rw [ih hle']
    simp only [s', height]
    exact waitersAt_deleteWaiters_ne s.waiters _ h (by omega)
  | case2 s received hlt =>
    rw [receiveBlocksLoop, dif_neg hlt]

theorem receiveBlocksLoop_wakes (ready : Nat → Nat → Bool) (watchers : List Nat)
    (s : BlockCounterState) (received : Nat) :
    ∀ wk ∈ (receiveBlocksLoop ready watchers s received).2.1,
      s.latestBlockHeight < wk.height ∧ wk.height ≤ received ∧
      wk.woken = waitersAt s.waiters wk.height ∧
      waitersAt (receiveBlocksLoop ready watchers s received).1.waiters wk.height = [] := by
  induction s, received using receiveBlocksLoop.induct ready watchers with
  | case1 s received hlt height s' ih =>
    intro wk hwk
    rw [receiveBlocksLoop, dif_pos hlt] at hwk ⊢
    simp only [List.mem_cons] at hwk
    rcases hwk with rfl | hwk
    · refine ⟨by simp only [height]; omega, by simp only [height]; omega, rfl, ?_⟩
      simp only
      have : waitersAt (receiveBlocksLoop ready watchers s' received).1.waiters height =
          waitersAt s'.waiters height :=
        receiveBlocksLoop_waiters_preserved ready watchers s' received height
          (by simp only [s', height]; omega)
      rw [this]
      simp only [s', height]
      exact waitersAt_deleteWaiters_self s.waiters _
    · obtain ⟨h1, h2, h3, h4⟩ := ih wk hwk
      refine ⟨?_, h2, ?_, h4⟩
      · have : s'.latestBlockHeight = s.latestBlockHeight + 1 := rfl
        omega
      · rw [h3]
        show waitersAt (deleteWaiters s.waiters height) wk.height = waitersAt s.waiters wk.height
        refine waitersAt_deleteWaiters_ne s.waiters height wk.height ?_
        have : s'.latestBlockHeight = height := rfl
        omega
  | case2 s received hlt =>
    intro wk hwk
    rw [receiveBlocksLoop, dif_neg hlt] at hwk
    simp at hwk

theorem receiveBlocksLoop_wakes_pairwise (ready : Nat → Nat → Bool)
    (watchers : List Nat) (s : BlockCounterState) (received : Nat) :
    ((receiveBlocksLoop ready watchers s received).2.1.map Wake.height).Pairwise (· < ·) := by
  induction s, received using receiveBlocksLoop.induct ready watchers with
  | case1 s received hlt height s' ih =>
    rw [receiveBlocksLoop, dif_pos hlt]
    simp only [List.map_cons, List.pairwise_cons]
    refine ⟨?_, ih⟩
    intro a ha
    simp only [List.mem_map] at ha
    obtain ⟨wk, hwk, rfl⟩ := ha
    have := (receiveBlocksLoop_wakes ready watchers s' received wk hwk).1
    have hs' : s'.latestBlockHeight = height := rfl
    omega
  | case2 s received hlt =>
    rw [receiveBlocksLoop, dif_neg hlt]
    simp

theorem receiveBlocksLoop_indep (ready ready' : Nat → Nat → Bool)
    (watchers watchers' : List Nat) (s : BlockCounterState) (received : Nat) :
    (receiveBlocksLoop ready watchers s received).1 =
      (receiveBlocksLoop ready' watchers' s received).1 ∧
    (receiveBlocksLoop ready watchers s received).2.1 =
      (receiveBlocksLoop ready' watchers' s received).2.1 := by
  induction s, received using receiveBlocksLoop.induct ready watchers with
  | case1 s received hlt height s' ih =>
    constructor
    · rw [receiveBlocksLoop, dif_pos hlt]
      conv_rhs => rw [receiveBlocksLoop, dif_pos hlt]
      exact ih.1
    · have h2 := ih.2
      rw [receiveBlocksLoop, dif_pos hlt]
      conv_rhs => rw [receiveBlocksLoop, dif_pos hlt]
      simp only
      rw [h2]
  | case2 s received hlt =>
    constructor
    · rw [receiveBlocksLoop, dif_neg hlt]
      conv_rhs => rw [receiveBlocksLoop, dif_neg hlt]
    · rw [receiveBlocksLoop, dif_neg hlt]
      conv_rhs => rw [receiveBlocksLoop, dif_neg hlt]

theorem receiveBlocksLoop_deliveries (ready : Nat → Nat → Bool)
    (watchers : List Nat) (s : BlockCounterState) (received : Nat) :
    (receiveBlocksLoop ready watchers s received).2.2 =
      (receiveBlocksLoop ready watchers s received).2.1.flatMap
        (fun wk => (watchers.filter (fun w => ready w wk.height)).map
          (fun w => (w, wk.height))) := by
  induction s, received using receiveBlocksLoop.induct ready watchers with
  | case1 s received hlt height s' ih =>
    rw [receiveBlocksLoop, dif_pos hlt]
    simp only [List.flatMap_cons]
    rw [← ih]
  | case2 s received hlt =>
    rw [receiveBlocksLoop, dif_neg hlt]
    rfl

theorem receiveBlocksRun_latest (ready : Nat → Nat → Bool) (watchers : List Nat)
    (s : BlockCounterState) (ns : List Nat) :
    s.latestBlockHeight ≤ (receiveBlocksRun ready watchers s ns).1.latestBlockHeight := by
  induction ns generalizing s with
  | nil => exact Nat.le_refl _
  | cons n ns ih =>
    have h1 := receiveBlocksLoop_latest ready watchers s n
    have h2 := ih (receiveBlocksLoop ready watchers s n).1
    simp only [receiveBlocksRun]
    omega

theorem receiveBlocksRun_wakes_lower (ready : Nat → Nat → Bool) (watchers : List Nat)
    (s : BlockCounterState) (ns : List Nat) :
    ∀ wk ∈ (receiveBlocksRun ready watchers s ns).2.1,
      s.latestBlockHeight < wk.height := by
  induction ns generalizing s with
  | nil => intro wk hwk; simp [receiveBlocksRun] at hwk
  | cons n ns ih =>
    intro wk hwk
    simp only [receiveBlocksRun, List.mem_append] at hwk
    rcases hwk with hwk | hwk
    · exact (receiveBlocksLoop_wakes ready watchers s n wk hwk).1
    · have := ih (receiveBlocksLoop ready watchers s n).1 wk hwk
      have hl := receiveBlocksLoop_latest ready watchers s n
      omega

theorem receiveBlocksRun_wakes_pairwise (ready : Nat → Nat → Bool)
    (watchers : List Nat) (s : BlockCounterState) (ns : List Nat) :
    ((receiveBlocksRun ready watchers s ns).2.1.map Wake.height).Pairwise (· < ·) := by
  induction ns generalizing s with
  | nil => simp [receiveBlocksRun]
  | cons n ns ih =>
    simp only [receiveBlocksRun, List.map_append]
    rw [List.pairwise_append]
    refine ⟨receiveBlocksLoop_wakes_pairwise ready watchers s n, ih _, ?_⟩
    intro a ha b hb
    simp only [List.mem_map] at ha hb
    obtain ⟨wka, hwka, rfl⟩ := ha
    obtain ⟨wkb, hwkb, rfl⟩ := hb
    have h1 := (receiveBlocksLoop_wakes ready watchers s n wka hwka).2.1
    have h2 := receiveBlocksRun_wakes_lower ready watchers _ ns wkb hwkb
    have hl := receiveBlocksLoop_latest ready watchers s n
    omega

theorem receiveBlocksRun_indep (ready ready' : Nat → Nat → Bool)
    (watchers : List Nat) (s : BlockCounterState) (ns : List Nat) :
    (receiveBlocksRun ready watchers s ns).1 =
      (receiveBlocksRun ready' watchers s ns).1 ∧
    (receiveBlocksRun ready watchers s ns).2.1 =
      (receiveBlocksRun ready' watchers s ns).2.1 := by
  induction ns generalizing s with
  | nil => exact ⟨rfl, rfl⟩
  | cons n ns ih =>
    have hstep := receiveBlocksLoop_indep ready ready' watchers watchers s n
    simp only [receiveBlocksRun]
    rw [hstep.1, hstep.2]
    exact ⟨(ih _).1, by rw [(ih _).2]⟩

theorem receiveBlocksRun_deliveries (ready : Nat → Nat → Bool)
    (watchers : List Nat) (s : BlockCounterState) (ns : List Nat) :
    (receiveBlocksRun ready watchers s ns).2.2 =
      (receiveBlocksRun ready watchers s ns).2.1.flatMap
        (fun wk => (watchers.filter (fun w => ready w wk.height)).map
          (fun w => (w, wk.height))) := by
  induction ns generalizing s with
  | nil => rfl
  | cons n ns ih =>
    simp only [receiveBlocksRun, List.flatMap_append]
    rw [receiveBlocksLoop_deliveries, ih]

theorem deliveredTo_append (a b : List (Nat × Nat)) (w : Nat) :
    deliveredTo (a ++ b) w = deliveredTo a w ++ deliveredTo b w := by
  simp [deliveredTo]

theorem deliveredTo_cons (x hh : Nat) (rest : List (Nat × Nat)) (w : Nat) :
    deliveredTo ((x, hh) :: rest) w =
      if x = w then hh :: deliveredTo rest w else deliveredTo rest w := by
  by_cases hxw : x = w
  · simp [deliveredTo, List.filter_cons, hxw]
  · simp [deliveredTo, List.filter_cons, hxw]

theorem deliveredTo_one_height (watchers : List Nat) (hnd : watchers.Nodup)
    (ready : Nat → Nat → Bool) (w h : Nat) :
    deliveredTo ((watchers.filter (fun x => ready x h)).map (fun x => (x, h))) w =
      if w ∈ watchers ∧ ready w h = true then [h] else [] := by
  induction watchers with
  | nil => simp [deliveredTo]
  | cons x xs ih =>
    obtain ⟨hx, hnd'⟩ := List.nodup_cons.mp hnd
    have ihx := ih hnd'
    simp only [List.filter_cons]
    by_cases hr : ready x h = true
    · rw [if_pos hr, List.map_cons, deliveredTo_cons, ihx]
      by_cases hxw : x = w
      · subst hxw
        rw [if_pos rfl, if_neg (fun hc => hx hc.1),
          if_pos ⟨List.mem_cons_self x xs, hr⟩]
      · rw [if_neg hxw]
        by_cases hw : w ∈ xs ∧ ready w h = true
        · rw [if_pos hw, if_pos ⟨List.mem_cons_of_mem x hw.1, hw.2⟩]
        · refine (if_neg hw).trans (if_neg (fun hc => hw ⟨?_, hc.2⟩)).symm
          rcases List.mem_cons.mp hc.1 with heq | hmem
          · exact absurd heq.symm hxw
          · exact hmem
    · rw [if_neg hr, ihx]
      by_cases hw : w ∈ xs ∧ ready w h = true
      · rw [if_pos hw, if_pos ⟨List.mem_cons_of_mem x hw.1, hw.2⟩]
      · refine (if_neg hw).trans (if_neg (fun hc => ?_)).symm
        rcases List.mem_cons.mp hc.1 with heq | hmem
        · exact hr (heq ▸ hc.2)
        · exact hw ⟨hmem, hc.2⟩

theorem deliveredTo_flatMap (watchers : List Nat) (hnd : watchers.Nodup)
    (ready : Nat → Nat → Bool) (w : Nat) (wakes : List Wake) :
    deliveredTo (wakes.flatMap
        (fun wk => (watchers.filter (fun x => ready x wk.height)).map
          (fun x => (x, wk.height)))) w =
      (wakes.map Wake.height).filter (fun h => decide (w ∈ watchers) && ready w h) := by
  induction wakes with
  | nil => rfl
  | cons wk wks ih =>
    simp only [List.flatMap_cons, List.map_cons, List.filter_cons]
    rw [deliveredTo_append, deliveredTo_one_height watchers hnd ready w wk.height, ih]
    by_cases hw : w ∈ watchers ∧ ready w wk.height = true
    · rw [if_pos hw]
      have : (decide (w ∈ watchers) && ready w wk.height) = true := by
        simp [hw.1, hw.2]
      rw [this]
      simp
    · rw [if_neg hw]
      have : (decide (w ∈ watchers) && ready w wk.height) = false := by
        by_cases h1 : w ∈ watchers
        · have h2 : ready w wk.height = false := by
            rcases Bool.eq_false_or_eq_true (ready w wk.height) with hrw | hrw
            · exact absurd ⟨h1, hrw⟩ hw
            · exact hrw
          simp [h2]
        · simp [h1]
      rw [this]
      simp

/-- Heights delivered to watcher `w` in a run, in closed form. -/
theorem deliveredTo_run (ready : Nat → Nat → Bool) (watchers : List Nat)
    (hnd : watchers.Nodup) (w : Nat) (s : BlockCounterState) (ns : List Nat) :
    deliveredTo (receiveBlocksRun ready watchers s ns).2.2 w =
      ((receiveBlocksRun ready watchers s ns).2.1.map Wake.height).filter
        (fun h => decide (w ∈ watchers) && ready w h) := by
  rw [receiveBlocksRun_deliveries, deliveredTo_flatMap watchers hnd ready w]

/-- C4: in any run of the block counter's notification loop, the sequence of
heights delivered to a registered watcher is strictly increasing; a watcher
not ready at a height has that height dropped for it without affecting what
any other watcher receives (deliveries to `w` depend only on `w`'s own
readiness); and a dropped height is never redelivered (a height `w` was not
ready for never appears among `w`'s deliveries). -/
theorem watchBlocks_delivery_spec (ready ready' : Nat → Nat → Bool)
    (watchers : List Nat) (w : Nat) (s : BlockCounterState) (ns : List Nat)
    (hnd : watchers.Nodup) (hagree : ∀ h, ready w h = ready' w h) :
    (deliveredTo (receiveBlocksRun ready watchers s ns).2.2 w).Pairwise (· < ·) ∧
    deliveredTo (receiveBlocksRun ready watchers s ns).2.2 w =
      deliveredTo (receiveBlocksRun ready' watchers s ns).2.2 w ∧
    (∀ h, ready w h = false →
      (w, h) ∉ (receiveBlocksRun ready watchers s ns).2.2) := by
  refine ⟨?_, ?_, ?_⟩
  · rw [deliveredTo_run ready watchers hnd w s ns]
    exact (receiveBlocksRun_wakes_pairwise ready watchers s ns).sublist
      (List.filter_sublist _)
  · rw [deliveredTo_run ready watchers hnd w s ns,
      deliveredTo_run ready' watchers hnd w s ns,
      (receiveBlocksRun_indep ready ready' watchers s ns).2]
    refine List.filter_congr ?_
    intro h _
    rw [hagree h]
  · intro h hnr hmem
    rw [receiveBlocksRun_deliveries] at hmem
    obtain ⟨wk, _, hin⟩ := List.mem_flatMap.mp hmem
    simp only [List.mem_map] at hin
    obtain ⟨x, hx, hxeq⟩ := hin
    have hxw : x = w := congrArg Prod.fst hxeq
    have hh : wk.height = h := congrArg Prod.snd hxeq
    subst hxw
    have := List.of_mem_filter hx
    rw [hh, hnr] at this
    exact Bool.false_ne_true this

/-- Sample readiness oracle for the block counter witnesses: every watcher
is ready at even heights only. -/
def evenReady : Nat → Nat → Bool := fun _ h => h % 2 == 0

/-- Sample block counter state for the witnesses: latest height 100 with
waiters registered at heights 101 and 103. -/
def sampleCounterState : BlockCounterState :=
  { latestBlockHeight := 100, waiters := [(101, [7]), (103, [8])] }

/-- Witness for C4 at a concrete run: two watchers, readiness at even
heights, notifications 102 then 104. -/
theorem watchBlocks_delivery_spec_witness :
    (deliveredTo (receiveBlocksRun evenReady [1, 2] sampleCounterState [102, 104]).2.2 1).Pairwise
      (· < ·) ∧
    deliveredTo (receiveBlocksRun evenReady [1, 2] sampleCounterState [102, 104]).2.2 1 =
      deliveredTo (receiveBlocksRun evenReady [1, 2] sampleCounterState [102, 104]).2.2 1 ∧
    (∀ h, evenReady 1 h = false →
      (1, h) ∉ (receiveBlocksRun evenReady [1, 2] sampleCounterState [102, 104]).2.2) :=
  watchBlocks_delivery_spec evenReady evenReady [1, 2] 1 sampleCounterState [102, 104]
    (by decide) (fun _ => rfl)

/-- C9: in the notification loop, `latestBlockHeight` never decreases (one
notification, and any run of notifications); a notification whose height is
at most the current `latestBlockHeight` wakes no waiters; the processed
heights are pairwise distinct (strictly increasing), so each registered
waiter is woken at most once; and every wake event carries exactly the
waiters registered at its height, which are removed from the waiter map (the
final map no longer holds them). -/
theorem receiveBlocks_waiter_spec (ready : Nat → Nat → Bool) (watchers : List Nat)
    (s : BlockCounterState) (received : Nat) (ns : List Nat) :
    s.latestBlockHeight ≤
      (receiveBlocksLoop ready watchers s received).1.latestBlockHeight ∧
    s.latestBlockHeight ≤
      (receiveBlocksRun ready watchers s ns).1.latestBlockHeight ∧
    (received ≤ s.latestBlockHeight →
      (receiveBlocksLoop ready watchers s received).2.1 = []) ∧
    ((receiveBlocksLoop ready watchers s received).2.1.map Wake.height).Pairwise (· < ·) ∧
    (∀ wk ∈ (receiveBlocksLoop ready watchers s received).2.1,
      wk.woken = waitersAt s.waiters wk.height ∧
      waitersAt (receiveBlocksLoop ready watchers s received).1.waiters wk.height = []) := by
  refine ⟨?_, receiveBlocksRun_latest ready watchers s ns, ?_, ?_, ?_⟩
  · have := receiveBlocksLoop_latest ready watchers s received
    omega
  · intro hle
    rw [receiveBlocksLoop, dif_neg (by omega)]
  · exact receiveBlocksLoop_wakes_pairwise ready watchers s received
  · intro wk hwk
    have := receiveBlocksLoop_wakes ready watchers s received wk hwk
    exact ⟨this.2.2.1, this.2.2.2⟩

/-- Witness for C9 at a concrete state and notification: heights 101 and 102
are processed, the waiter at 101 is woken exactly once and removed. -/
theorem receiveBlocks_waiter_spec_witness :
    (100 : Nat) ≤
      (receiveBlocksLoop evenReady [1] sampleCounterState 102).1.latestBlockHeight ∧
    (receiveBlocksLoop evenReady [1] sampleCounterState 100).2.1 = [] ∧
    ((receiveBlocksLoop evenReady [1] sampleCounterState 102).2.1.map Wake.height).Pairwise
      (· < ·) ∧
    ((⟨101, [7]⟩ : Wake).woken = waitersAt sampleCounterState.waiters 101 ∧
      waitersAt (receiveBlocksLoop evenReady [1] sampleCounterState 102).1.waiters 101 = []) :=
  ⟨(receiveBlocks_waiter_spec evenReady [1] sampleCounterState 102 []).1,
   (receiveBlocks_waiter_spec evenReady [1] sampleCounterState 100 []).2.2.1 (by decide),
   (receiveBlocks_waiter_spec evenReady [1] sampleCounterState 102 []).2.2.2.1,
   (receiveBlocks_waiter_spec evenReady [1] sampleCounterState 102 []).2.2.2.2
     ⟨101, [7]⟩ (by
       simp [receiveBlocksLoop, sampleCounterState, deleteWaiters, waitersAt, evenReady])⟩

/- ------------------------------------------------------------------
C2: pre-start synchronization (pkg/tss `GenerateThresholdSigner` and
`CalculateSignature`, the `TODO: Sync` WaitGroup barrier)
------------------------------------------------------------------ -/

/-- Embeds the `TODO: Sync` barrier of `GenerateThresholdSigner` and
`CalculateSignature` (pkg/tss): a package-level `sync.WaitGroup`
(`KeyGenSync` / `SigningSync`) on which every member calls `Done()` and
then `Wait()` between initializing its crypto party and calling `Start()`
on it.  `arrivals` records, per member, the time of its `Done()` call
(`none` when it never calls).  `doneCount arrivals t` is the number of
`Done()` calls that have happened by time `t`. -/
def doneCount (arrivals : List (Option Nat)) (t : Nat) : Nat :=
  (arrivals.filter (fun a => match a with
    | some u => decide (u ≤ t)
    | none => false)).length

/-- Release condition of the barrier: the WaitGroup counter is initialized
by the callers' `Add` to the group size, and `Wait()` returns at time `t`
exactly when the counter has reached zero, i.e. every member has called
`Done()` by `t`.  There is no other way out of `Wait()`. -/
def waitGroupReleased (arrivals : List (Option Nat)) (t : Nat) : Bool :=
  doneCount arrivals t == arrivals.length

/-- Member `i` has called `Start()` on its crypto party by time `t`: in the
source, `Start` (inside `generateKey` / `sign`) runs only after the
member's own `Done()` and after its `Wait()` has returned. -/
def memberStartedBy (arrivals : List (Option Nat)) (i t : Nat) : Bool :=
  waitGroupReleased arrivals t &&
    (match arrivals.getD i none with
      | some u => decide (u ≤ t)
      | none => false)

/-- Messages published on the session's broadcast channel by the barrier:
the `KeyGenSync.Done(); KeyGenSync.Wait()` (and `SigningSync`) lines
perform only WaitGroup operations and send nothing on any channel, for any
arrival pattern. -/
def barrierReadyMessages : List (Option Nat) → List Nat := fun _ => []

/-- Session failure caused by the barrier by time `t`: `sync.WaitGroup.Wait`
has no timeout and no failure path — it either returns or blocks forever,
so the barrier never fails the session, for any arrival pattern and time. -/
def barrierFailedBy : List (Option Nat) → Nat → Bool := fun _ _ => false

/-- C2 (code-bug exhibit at the failing input): in a three-member session
where members 1 and 2 call `Done` at time 0 and member 3 never does (the
spec's §8 scenario 5), the code's barrier publishes no ready message on the
broadcast channel, never fails the session at any time — in particular not
at the claimed 60-second default — never releases the wait, and no member
ever starts its crypto party.  The behavior the claim requires (a ready
message from every member, session failure at timeout expiry) is absent
from the code, which itself marks this synchronization as a temporary
placeholder. -/
theorem keyGenSync_barrier_code_bug :
    barrierReadyMessages [some 0, some 0, none] = [] ∧
    (∀ t, barrierFailedBy [some 0, some 0, none] t = false) ∧
    (∀ t, waitGroupReleased [some 0, some 0, none] t = false) ∧
    (∀ i t, memberStartedBy [some 0, some 0, none] i t = false) := by
  have hrel : ∀ t, waitGroupReleased [some 0, some 0, none] t = false := by
    intro t
    have h0 : decide (0 ≤ t) = true := decide_eq_true (Nat.zero_le t)
    simp [waitGroupReleased, doneCount, h0]
  refine ⟨rfl, fun t => rfl, hrel, ?_⟩
  intro i t
  simp [memberStartedBy, hrel t]

/- ------------------------------------------------------------------
C5: subscription retry loop (`subscribeBlocks`, blockcounter.go)
------------------------------------------------------------------ -/

/-- Embeds the retry loop of `subscribeBlocks` (blockcounter.go):

    for { go subscribe(); <-errorChan; time.Sleep(5 * time.Second) }

`retrySleepSeconds n` is the delay, in seconds, slept after the `n`-th
failure (0-indexed) before the next attempt is launched: always
`5 * time.Second`. -/
def retrySleepSeconds (_n : Nat) : Nat := 5

/-- Number of subscribe attempts started once `f` failures have been
consumed from `errorChan`: the unconditional `for` loop starts one attempt,
waits for a failure, sleeps, and loops forever, so it retries
indefinitely. -/
def attemptsStarted (f : Nat) : Nat := f + 1

/-- Events produced by one `subscribe()` attempt toward the rest of the
counter: a new head carrying its block number, or a subscription failure. -/
inductive UpstreamEvent where
  | newHead (height : Nat)
  | subFailure
deriving DecidableEq

/-- What `subscribe()` forwards to `ebc.subscriptionChannel`: only header
numbers (`header.Number`); a failure goes to `errorChan` and the warning
log, never to the subscription channel feeding `receiveBlocks`. -/
def forwardToCounter : UpstreamEvent → Option Nat
  | .newHead h => some h
  | .subFailure => none

/-- Warning log entries produced per event inside `subscribe()`
(`logger.Warningf` on every failure). -/
def warningsLogged : UpstreamEvent → Nat
  | .newHead _ => 0
  | .subFailure => 1

/-- Block heights fed to the counter's notification loop by a sequence of
upstream events. -/
def heightsFedToCounter (evts : List UpstreamEvent) : List Nat :=
  evts.filterMap forwardToCounter

/-- Whether an upstream event is not a subscription failure. -/
def notFailure : UpstreamEvent → Bool
  | .newHead _ => true
  | .subFailure => false

/-- Modelled from the spec: "retries with bounded exponential backoff
(start 5 s)".  A delay sequence is a bounded exponential backoff from
`start` when it begins at `start` and doubles after each failure up to some
cap; for the backoff to be exponential at all, the cap must exceed the
start. -/
def isBoundedExponentialBackoff (delay : Nat → Nat) (start : Nat) : Prop :=
  ∃ cap, start < cap ∧ delay 0 = start ∧ ∀ n, delay (n + 1) = min cap (2 * delay n)

/-- C5 (counterexample): the code's retry delays do not follow an
exponential backoff starting at 5 seconds — the delay after the second
failure is still 5 seconds, while an exponential backoff whose cap lets it
grow at all would sleep longer. -/
theorem retryBackoff_not_exponential :
    ¬ isBoundedExponentialBackoff retrySleepSeconds 5 := by
  rintro ⟨cap, hcap, h0, hstep⟩
  have h1 : (5 : Nat) = min cap 10 := by
    simpa [retrySleepSeconds] using hstep 0
  omega

/-- C5 (amended): when the upstream new-head subscription fails, the
counter retries resubscribing indefinitely — after any number of failures
one more attempt is started — with a constant 5-second delay after each
failure (so the first delay is 5 seconds), logging one warning per failure;
and a failure feeds nothing to the notification loop — only new heads do —
so registered waiters are never woken by a subscription failure: any run of
the notification loop is unchanged when the failures are removed from the
upstream event sequence. -/
theorem subscribeBlocks_retry_spec :
    (∀ n, retrySleepSeconds n = 5) ∧
    (∀ f, attemptsStarted f = f + 1) ∧
    warningsLogged .subFailure = 1 ∧
    (∀ e, forwardToCounter e = none ↔ e = .subFailure) ∧
    (∀ evts, heightsFedToCounter (evts.filter notFailure) =
      heightsFedToCounter evts) ∧
    (∀ ready watchers s evts,
      receiveBlocksRun ready watchers s
          (heightsFedToCounter (evts.filter notFailure)) =
        receiveBlocksRun ready watchers s (heightsFedToCounter evts)) := by
  have hfed : ∀ evts, heightsFedToCounter (evts.filter notFailure) =
      heightsFedToCounter evts := by
    intro evts
    induction evts with
    | nil => rfl
    | cons e es ih =>
      cases e with
      | newHead h =>
        simp only [heightsFedToCounter] at ih ⊢
        simp [List.filter_cons, List.filterMap_cons, forwardToCounter, notFailure, ih]
      | subFailure =>
        simp only [heightsFedToCounter] at ih ⊢
        simp [List.filter_cons, List.filterMap_cons, forwardToCounter, notFailure, ih]
  refine ⟨fun n => rfl, fun f => rfl, rfl, ?_, hfed, ?_⟩
  · intro e
    cases e with
    | newHead h => simp [forwardToCounter]
    | subFailure => simp [forwardToCounter]
  · intro ready watchers s evts
    rw [hfed evts]

end KeepEcdsa
